import Mathlib

/-!
Verification of the submarine-swap / SPV-verifier core.

The definitions below are shallow embeddings of the Python sources
`src/electrum/submarine_swaps.py` (fee calculator, swap store, chain watcher,
swap setup) and `src/lib/verifier.py` (SPV merkle-proof verifier).

Modelling conventions:
  - Python ints are `Int` (they are unbounded in Python as well);
  - the `Decimal` fee arithmetic is modelled exactly over `Rat` (at the
    satoshi magnitudes involved the 28-significant-digit `Decimal` context is
    exact, so `math.ceil`/`math.floor` agree with `Int.ceil`/`Int.floor`);
  - a raised Python exception is modelled as `Except.error ()`;
  - external primitives that are not part of the analysed sources
    (hash functions, hex codecs, the transaction deserializer, fee
    estimation, the dust-threshold constant) are abstracted as explicit
    parameters or configuration fields.
-/

instance {ε α : Type} [DecidableEq ε] [DecidableEq α] : DecidableEq (Except ε α) :=
  fun x y =>
    match x, y with
    | .ok a, .ok b =>
      if h : a = b then isTrue (by rw [h]) else isFalse (by intro hc; cases hc; exact h rfl)
    | .error a, .error b =>
      if h : a = b then isTrue (by rw [h]) else isFalse (by intro hc; cases hc; exact h rfl)
    | .ok _, .error _ => isFalse (by intro hc; cases hc)
    | .error _, .ok _ => isFalse (by intro hc; cases hc)

/- ------------------------------------------------------------------ -/
/- Fee / amount calculator (`SwapManager`)                             -/
/- ------------------------------------------------------------------ -/

/-- Fee/limit configuration of `SwapManager`: `percentage`, `normal_fee`,
`lockup_fee`, `_min_amount`, `_max_amount` are the provider parameters set by
`get_pairs` / `init_min_max_values`.  `dust` models the external
`bitcoin.dust_threshold()` and `claim_fee` the external
`config.estimate_fee(136, ...)` called by `SwapManager._get_claim_fee`. -/
structure SwapConfig where
  percentage : ℚ
  normal_fee : ℤ
  lockup_fee : ℤ
  min_amount : ℤ
  max_amount : ℤ
  dust : ℤ
  claim_fee : ℤ
deriving DecidableEq

/-- `SwapManager.check_invoice_amount`. -/
def check_invoice_amount (cfg : SwapConfig) (x : ℤ) : Bool :=
  decide (cfg.min_amount ≤ x) && decide (x ≤ cfg.max_amount)

/-- `SwapManager._get_recv_amount`.  In the reverse branch the source applies
`math.floor` to an integer-valued `Decimal`, which is the identity; all
intermediate values here are integers, and the ceilings are `Int.ceil` over
exact rationals. -/
def get_recv_amount_inner (cfg : SwapConfig) (send_amount : Option ℤ)
    (is_reverse : Bool) : Option ℤ :=
  match send_amount with
  | none => none
  | some s =>
    if is_reverse then
      if check_invoice_amount cfg s then
        let percentage_fee : ℤ := ⌈cfg.percentage * (s : ℚ) / 100⌉
        let x : ℤ := s - percentage_fee - cfg.lockup_fee
        if x < cfg.dust then none else some x
      else none
    else
      let x0 : ℤ := s - cfg.normal_fee
      let percentage_fee : ℤ := ⌈(x0 : ℚ) * cfg.percentage / (100 + cfg.percentage)⌉
      let x : ℤ := x0 - percentage_fee
      if check_invoice_amount cfg x then some x else none

/-- `SwapManager._get_send_amount`.  The source begins with the falsy test
`if not recv_amount: return`, which rejects both `None` and `0`. -/
def get_send_amount_inner (cfg : SwapConfig) (recv_amount : Option ℤ)
    (is_reverse : Bool) : Option ℤ :=
  match recv_amount with
  | none => none
  | some r =>
    if r = 0 then none
    else if is_reverse then
      let s : ℤ := ⌈((r : ℚ) + (cfg.lockup_fee : ℚ)) / ((100 - cfg.percentage) / 100)⌉
      if check_invoice_amount cfg s then some s else none
    else
      if check_invoice_amount cfg r then
        some (r + ⌈cfg.percentage * (r : ℚ) / 100⌉ + cfg.normal_fee)
      else none

/-- `SwapManager.get_recv_amount`.  When the inner inversion returns `None`
the source evaluates `abs(send_amount - None)`, a `TypeError`; both that and
the explicit sanity-check `raise` are modelled as `Except.error ()`. -/
def get_recv_amount (cfg : SwapConfig) (send_amount : Option ℤ)
    (is_reverse : Bool) : Except Unit (Option ℤ) :=
  match send_amount with
  | none => .ok none
  | some s =>
    match get_recv_amount_inner cfg (some s) is_reverse with
    | none => .ok none
    | some r =>
      match get_send_amount_inner cfg (some r) is_reverse with
      | none => .error ()
      | some inverted =>
        if 1 < |s - inverted| then .error ()
        else .ok (some (if is_reverse then r - cfg.claim_fee else r))

/-- `SwapManager.get_send_amount`.  The sanity check there compares the
(int) adjusted receive amount with the `Optional[int]` re-inverted amount;
`int != None` is `True` in Python, hence the `Option`-level comparison. -/
def get_send_amount (cfg : SwapConfig) (recv_amount : Option ℤ)
    (is_reverse : Bool) : Except Unit (Option ℤ) :=
  match recv_amount with
  | none => .ok none
  | some r =>
    let r2 : ℤ := if is_reverse then r + cfg.claim_fee else r
    match get_send_amount_inner cfg (some r2) is_reverse with
    | none => .ok none
    | some s =>
      if get_recv_amount_inner cfg (some s) is_reverse = some r2 then .ok (some s)
      else .error ()

/-- Rewriting ceilings through floors lets `norm_num` (which has a floor
extension but no ceiling extension) evaluate concrete fee computations. -/
theorem ceil_via_floor (a : ℚ) : ⌈a⌉ = -⌊-a⌋ := by rw [Int.floor_neg, neg_neg]

/-- Exactness of the forward fee inversion: adding back the ceiling
percentage fee and recomputing `x * p / (100 + p)` lands on the same fee. -/
theorem ceil_pct_inverse (p : ℚ) (hp0 : 0 ≤ p) (r : ℤ) :
    ⌈((r + ⌈p * (r : ℚ) / 100⌉ : ℤ) : ℚ) * p / (100 + p)⌉ = ⌈p * (r : ℚ) / 100⌉ := by
  have hden : (0:ℚ) < 100 + p := by linarith
  have h1 : p * (r:ℚ) / 100 ≤ ((⌈p * (r : ℚ) / 100⌉ : ℤ) : ℚ) := Int.le_ceil _
  have h2 : ((⌈p * (r : ℚ) / 100⌉ : ℤ) : ℚ) < p * (r:ℚ) / 100 + 1 := Int.ceil_lt_add_one _
  rw [Int.ceil_eq_iff]
  push_cast
  constructor
  · rw [lt_div_iff₀ hden]
    nlinarith [h1, h2]
  · rw [div_le_iff₀ hden]
    nlinarith [h1, h2]

/-- Exactness of the reverse fee inversion: if `S` is the ceiling-inverted
send amount for a net amount `a`, then re-deducting the ceiling percentage
fee from `S` recovers `a` exactly. -/
theorem ceil_inv_pct (p : ℚ) (hp0 : 0 ≤ p) (hp1 : p < 100) (a S : ℤ)
    (hS : S = ⌈(a : ℚ) / ((100 - p) / 100)⌉) :
    ⌈p * (S : ℚ) / 100⌉ = S - a := by
  have h100p : (0:ℚ) < 100 - p := by linarith
  have hrw : (a:ℚ) / ((100 - p) / 100) = (a:ℚ) * 100 / (100 - p) := div_div_eq_mul_div _ _ _
  have h1 : (a : ℚ) / ((100 - p) / 100) ≤ (S : ℚ) := by
    rw [hS]; exact_mod_cast Int.le_ceil _
  have h2 : (S:ℚ) < (a : ℚ) / ((100 - p) / 100) + 1 := by
    rw [hS]; exact_mod_cast Int.ceil_lt_add_one _
  rw [hrw] at h1 h2
  have h1' : (a:ℚ) * 100 ≤ (S:ℚ) * (100 - p) := (div_le_iff₀ h100p).mp h1
  have h2a : (S:ℚ) - 1 < (a:ℚ) * 100 / (100 - p) := by linarith
  have h2' : ((S:ℚ) - 1) * (100 - p) < (a:ℚ) * 100 := (lt_div_iff₀ h100p).mp h2a
  rw [Int.ceil_eq_iff]
  push_cast
  constructor
  · rw [lt_div_iff₀ (by norm_num : (0:ℚ) < 100)]
    nlinarith [h1', h2']
  · rw [div_le_iff₀ (by norm_num : (0:ℚ) < 100)]
    nlinarith [h1', h2']

theorem recv_inner_rev_iff (cfg : SwapConfig) (s r : ℤ) :
    get_recv_amount_inner cfg (some s) true = some r ↔
      check_invoice_amount cfg s = true ∧
      r = s - ⌈cfg.percentage * (s : ℚ) / 100⌉ - cfg.lockup_fee ∧
      cfg.dust ≤ r := by
  simp only [get_recv_amount_inner, if_true]
  split_ifs with h1 h2
  · simp only [h1, true_and]
    constructor
    · intro h; cases h
    · rintro ⟨rfl, hd⟩; exact absurd h2 (not_lt.mpr hd)
  · simp only [h1, true_and, Option.some.injEq]
    constructor
    · rintro rfl; exact ⟨rfl, not_lt.mp h2⟩
    · rintro ⟨rfl, _⟩; rfl
  · constructor
    · intro h; cases h
    · rintro ⟨hc, _⟩; exact absurd hc h1

theorem recv_inner_fwd_iff (cfg : SwapConfig) (s r : ℤ) :
    get_recv_amount_inner cfg (some s) false = some r ↔
      r = (s - cfg.normal_fee) -
            ⌈((s - cfg.normal_fee : ℤ) : ℚ) * cfg.percentage / (100 + cfg.percentage)⌉ ∧
      check_invoice_amount cfg r = true := by
  simp only [get_recv_amount_inner, Bool.false_eq_true, if_false]
  split_ifs with h1
  · simp only [Option.some.injEq]
    constructor
    · rintro rfl; exact ⟨rfl, h1⟩
    · rintro ⟨rfl, _⟩; rfl
  · constructor
    · intro h; cases h
    · rintro ⟨rfl, hc⟩; exact absurd hc h1

theorem send_inner_rev_iff (cfg : SwapConfig) (r S : ℤ) :
    get_send_amount_inner cfg (some r) true = some S ↔
      r ≠ 0 ∧
      S = ⌈((r : ℚ) + (cfg.lockup_fee : ℚ)) / ((100 - cfg.percentage) / 100)⌉ ∧
      check_invoice_amount cfg S = true := by
  simp only [get_send_amount_inner, if_true]
  split_ifs with h0 h1
  · constructor
    · intro h; cases h
    · rintro ⟨hne, _⟩; exact absurd h0 hne
  · simp only [h0, ne_eq, not_false_eq_true, true_and, Option.some.injEq]
    constructor
    · rintro rfl; exact ⟨rfl, h1⟩
    · rintro ⟨rfl, _⟩; rfl
  · simp only [h0, ne_eq, not_false_eq_true, true_and]
    constructor
    · intro h; cases h
    · rintro ⟨rfl, hc⟩; exact absurd hc h1

theorem send_inner_fwd_iff (cfg : SwapConfig) (r S : ℤ) :
    get_send_amount_inner cfg (some r) false = some S ↔
      r ≠ 0 ∧ check_invoice_amount cfg r = true ∧
      S = r + ⌈cfg.percentage * (r : ℚ) / 100⌉ + cfg.normal_fee := by
  simp only [get_send_amount_inner, Bool.false_eq_true, if_false]
  split_ifs with h0 h1
  · constructor
    · intro h; cases h
    · rintro ⟨hne, _⟩; exact absurd h0 hne
  · constructor
    · intro h; injection h with h2; exact ⟨h0, h1, h2.symm⟩
    · rintro ⟨_, _, rfl⟩; rfl
  · constructor
    · intro h; cases h
    · rintro ⟨_, hc, _⟩; exact absurd hc h1


theorem get_recv_amount_ok_elim (cfg : SwapConfig) (ir : Bool) (s r : ℤ)
    (h : get_recv_amount cfg (some s) ir = .ok (some r)) :
    ∃ r0 inv : ℤ, get_recv_amount_inner cfg (some s) ir = some r0 ∧
      get_send_amount_inner cfg (some r0) ir = some inv ∧
      |s - inv| ≤ 1 ∧ r = (if ir then r0 - cfg.claim_fee else r0) := by
  simp only [get_recv_amount] at h
  cases hrec : get_recv_amount_inner cfg (some s) ir with
  | none => simp only [hrec] at h; injection h with h; exact Option.noConfusion h
  | some r0 =>
    simp only [hrec] at h
    cases hinv : get_send_amount_inner cfg (some r0) ir with
    | none => simp only [hinv] at h; exact Except.noConfusion h
    | some inv =>
      simp only [hinv] at h
      by_cases hg : 1 < |s - inv|
      · rw [if_pos hg] at h; exact Except.noConfusion h
      · rw [if_neg hg] at h
        injection h with h; injection h with h
        exact ⟨r0, inv, rfl, hinv, not_lt.mp hg, h.symm⟩

theorem get_recv_amount_eq_of (cfg : SwapConfig) (ir : Bool) (s r0 inv : ℤ)
    (hrec : get_recv_amount_inner cfg (some s) ir = some r0)
    (hinv : get_send_amount_inner cfg (some r0) ir = some inv)
    (hg : ¬ 1 < |s - inv|) :
    get_recv_amount cfg (some s) ir =
      .ok (some (if ir then r0 - cfg.claim_fee else r0)) := by
  simp only [get_recv_amount, hrec, hinv, if_neg hg]

theorem get_send_amount_ok_elim (cfg : SwapConfig) (ir : Bool) (r s2 : ℤ)
    (h : get_send_amount cfg (some r) ir = .ok (some s2)) :
    get_send_amount_inner cfg (some (if ir then r + cfg.claim_fee else r)) ir = some s2 ∧
    get_recv_amount_inner cfg (some s2) ir =
      some (if ir then r + cfg.claim_fee else r) := by
  simp only [get_send_amount] at h
  cases hS : get_send_amount_inner cfg (some (if ir then r + cfg.claim_fee else r)) ir with
  | none => simp only [hS] at h; injection h with h; exact Option.noConfusion h
  | some S =>
    simp only [hS] at h
    by_cases hkey : get_recv_amount_inner cfg (some S) ir =
        some (if ir then r + cfg.claim_fee else r)
    · rw [if_pos hkey] at h
      injection h with h; injection h with h
      subst h
      exact ⟨rfl, hkey⟩
    · rw [if_neg hkey] at h; exact Except.noConfusion h

theorem get_send_amount_eq_of (cfg : SwapConfig) (ir : Bool) (r r2 S : ℤ)
    (hr : (if ir then r + cfg.claim_fee else r) = r2)
    (hS : get_send_amount_inner cfg (some r2) ir = some S)
    (hkey : get_recv_amount_inner cfg (some S) ir = some r2) :
    get_send_amount cfg (some r) ir = .ok (some S) := by
  simp only [get_send_amount, hr, hS, hkey, eq_self_iff_true, if_true]

/-- C1: whenever `get_recv_amount` returns an amount, feeding it back through
`get_send_amount` returns (without raising) a send amount within one unit of
the original, and whenever `get_send_amount` returns an amount,
`get_recv_amount` maps it back exactly to the original receive amount
(percentage fee assumed in `[0, 100)`). -/
theorem fee_calc_roundtrip_invertible (cfg : SwapConfig) (ir : Bool)
    (hp0 : 0 ≤ cfg.percentage) (hp1 : cfg.percentage < 100) :
    (∀ s r : ℤ, get_recv_amount cfg (some s) ir = .ok (some r) →
        ∃ s2 : ℤ, get_send_amount cfg (some r) ir = .ok (some s2) ∧ |s2 - s| ≤ 1) ∧
    (∀ r s2 : ℤ, get_send_amount cfg (some r) ir = .ok (some s2) →
        get_recv_amount cfg (some s2) ir = .ok (some r)) := by
  constructor
  · intro s r h
    obtain ⟨r0, inv, hrec, hinv, hbound, hr⟩ := get_recv_amount_ok_elim cfg ir s r h
    have hr2 : (if ir then r + cfg.claim_fee else r) = r0 := by
      cases ir with
      | true =>
        replace hr : r = r0 - cfg.claim_fee := hr
        show r + cfg.claim_fee = r0
        omega
      | false =>
        replace hr : r = r0 := hr
        show r = r0
        exact hr
    have hkey : get_recv_amount_inner cfg (some inv) ir = some r0 := by
      cases ir with
      | true =>
        obtain ⟨hchk_s, hr0, hdust⟩ := (recv_inner_rev_iff cfg s r0).mp hrec
        obtain ⟨hr0ne, hinvS, hchk_inv⟩ := (send_inner_rev_iff cfg r0 inv).mp hinv
        have hceil : ⌈cfg.percentage * (inv : ℚ) / 100⌉ = inv - (r0 + cfg.lockup_fee) := by
          refine ceil_inv_pct cfg.percentage hp0 hp1 (r0 + cfg.lockup_fee) inv ?_
          rw [hinvS]; congr 1; push_cast; ring
        refine (recv_inner_rev_iff cfg inv r0).mpr ⟨hchk_inv, ?_, hdust⟩
        rw [hceil]; ring
      | false =>
        obtain ⟨hr0, hchk_r0⟩ := (recv_inner_fwd_iff cfg s r0).mp hrec
        obtain ⟨hr0ne, hchk_r0b, hinvS⟩ := (send_inner_fwd_iff cfg r0 inv).mp hinv
        have harg : inv - cfg.normal_fee = r0 + ⌈cfg.percentage * (r0 : ℚ) / 100⌉ := by
          rw [hinvS]; ring
        refine (recv_inner_fwd_iff cfg inv r0).mpr ⟨?_, hchk_r0⟩
        rw [harg, ceil_pct_inverse cfg.percentage hp0 r0]; ring
    exact ⟨inv, get_send_amount_eq_of cfg ir r r0 inv hr2 hinv hkey,
      by rw [abs_sub_comm]; exact hbound⟩
  · intro r s2 h
    obtain ⟨hS, hkey⟩ := get_send_amount_ok_elim cfg ir r s2 h
    have hres := get_recv_amount_eq_of cfg ir s2 (if ir then r + cfg.claim_fee else r) s2
      hkey hS (by simp)
    rw [hres]
    cases ir with
    | true =>
      show Except.ok (some (r + cfg.claim_fee - cfg.claim_fee)) = Except.ok (some r)
      rw [add_sub_cancel_right]
    | false => rfl

/-- Fee configuration at which C1 fails as stated: 0.5 % fee, no flat fees,
provider limits `[10001, 10000000]` (the source accepts arbitrary JSON
limits), dust threshold 546. -/
def cfgCX : SwapConfig :=
  { percentage := 1/2, normal_fee := 0, lockup_fee := 0,
    min_amount := 10001, max_amount := 10000000, dust := 546, claim_fee := 0 }

/-- C1 counterexample: `send_amount = 10001` is within the provider limits of
`cfgCX`, yet the reverse-direction round trip faults (in the source,
`abs(send_amount - inverted_send_amount)` hits a `TypeError` on `None`
because the inverted send amount 10000 falls below `min_amount = 10001`)
instead of returning a value within one unit. -/
theorem fee_calc_roundtrip_counterexample :
    cfgCX.min_amount ≤ 10001 ∧ (10001 : ℤ) ≤ cfgCX.max_amount ∧
    get_recv_amount cfgCX (some 10001) true = .error () := by
  refine ⟨by norm_num [cfgCX], by norm_num [cfgCX], ?_⟩
  norm_num [get_recv_amount, get_recv_amount_inner, get_send_amount_inner,
    check_invoice_amount, cfgCX, ceil_via_floor]

/-- Fee configuration used for the C1 witness. -/
def cfgW : SwapConfig :=
  { percentage := 1/2, normal_fee := 10, lockup_fee := 10,
    min_amount := 10000, max_amount := 10000000, dust := 546, claim_fee := 100 }

/-- Witness for C1 at a concrete configuration: applying the
receive-to-send-to-receive half of the theorem at `recv_amount = 19790`. -/
theorem fee_calc_roundtrip_invertible_witness :
    get_recv_amount cfgW (some 20000) true = .ok (some 19790) :=
  (fee_calc_roundtrip_invertible cfgW true (by norm_num [cfgW]) (by norm_num [cfgW])).2
    19790 20000
    (by norm_num [get_send_amount, get_send_amount_inner, get_recv_amount_inner,
      check_invoice_amount, cfgW, ceil_via_floor])

/- ------------------------------------------------------------------ -/
/- SPV merkle-proof verifier (`src/lib/verifier.py`)                   -/
/- ------------------------------------------------------------------ -/

/-- Modelled from the spec: the external primitives used by `SPV` that are
not part of the analysed sources — `Hash` (double SHA-256 from `bitcoin.py`),
`hash_decode` / `hash_encode` / `bh2u` (hex codec helpers from
`util.py`/`bitcoin.py`), and the transaction deserializer behind
`SPV._raise_if_valid_tx` (`isValidTx raw = true` models
`Transaction(raw).deserialize()` succeeding, i.e. the hash parses as a
syntactically valid transaction).  Byte strings are `List Nat`. -/
structure SPVPrims where
  Hash : List Nat → List Nat
  hashDecode : String → List Nat
  hashEncode : List Nat → String
  bh2u : List Nat → String
  isValidTx : String → Bool

/-- One fold step of `SPV.hash_merkle_root`: bit `i` of `pos` decides whether
the sibling is prepended (`Hash(hash_decode(item) + h)`) or appended
(`Hash(h + hash_decode(item))`); `(pos >> i) & 1` is `(pos >>> i) % 2`. -/
def merkleStep (P : SPVPrims) (pos i : Nat) (h : List Nat) (item : String) : List Nat :=
  if (pos >>> i) % 2 = 1 then P.Hash (P.hashDecode item ++ h)
  else P.Hash (h ++ P.hashDecode item)

/-- The loop of `SPV.hash_merkle_root`: after each fold step the intermediate
hash is handed to `SPV._raise_if_valid_tx`, modelled as an `Except.error`. -/
def hashMerkleRootAux (P : SPVPrims) (pos : Nat) :
    List Nat → List String → Nat → Except Unit (List Nat)
  | h, [], _ => .ok h
  | h, item :: rest, i =>
    let h2 := merkleStep P pos i h item
    if P.isValidTx (P.bh2u h2) then .error ()
    else hashMerkleRootAux P pos h2 rest (i + 1)

/-- `SPV.hash_merkle_root`. -/
def hash_merkle_root (P : SPVPrims) (merkle_s : List String) (target_hash : String)
    (pos : Nat) : Except Unit String :=
  (hashMerkleRootAux P pos (P.hashDecode target_hash) merkle_s 0).map P.hashEncode

/-- All intermediate hashes the fold of `SPV.hash_merkle_root` produces
(computed ignoring the abort, since `Hash` is a pure function). -/
def merkleChain (P : SPVPrims) (pos : Nat) :
    List Nat → List String → Nat → List (List Nat)
  | _, [], _ => []
  | h, item :: rest, i =>
    let h2 := merkleStep P pos i h item
    h2 :: merkleChain P pos h2 rest (i + 1)

/-- Definition following the spec wording for C5 (refinement reference):
fold the transaction hash with each sibling, bit `i` of `position`
(`Nat.testBit`) selecting whether sibling `i` is prepended or appended. -/
def specMerkleFoldAux (P : SPVPrims) (pos : Nat) :
    List Nat → List String → Nat → List Nat
  | h, [], _ => h
  | h, item :: rest, i =>
    specMerkleFoldAux P pos
      (if Nat.testBit pos i then P.Hash (P.hashDecode item ++ h)
       else P.Hash (h ++ P.hashDecode item)) rest (i + 1)

/-- Spec-side merkle fold (see `specMerkleFoldAux`). -/
def specMerkleFold (P : SPVPrims) (target_hash : String) (siblings : List String)
    (pos : Nat) : List Nat :=
  specMerkleFoldAux P pos (P.hashDecode target_hash) siblings 0

/-- A merkle response consumed by `SPV.verify_merkle`:
`{params: [tx_hash], result: {merkle, block_height, pos}}`, plus the
`response.get('error')` flag. -/
structure MerkleResp where
  err : Bool
  tx_hash : String
  merkle : List String
  block_height : ℤ
  pos : Nat
deriving DecidableEq

/-- The fields of a stored block header that `SPV.verify_merkle` reads. -/
structure BlockHeader where
  merkle_root : String
  timestamp : ℤ
deriving DecidableEq

/-- How one `verify_merkle` call ends (each early `return` of the source). -/
inductive VerifyOutcome where
  | killed
  | respError
  | innerNodeAbort
  | headerMissing
  | rootMismatch
  | verified
deriving DecidableEq

/-- The verifier state of `SPV`: `merkle_roots` (txid → verified root, a
dict modelled as an association list) and `requested_merkle` (txid set). -/
structure SPVState where
  merkle_roots : List (String × String)
  requested_merkle : List String
deriving DecidableEq

/-- `SPV.__init__`: both collections start empty. -/
def initial_spv_state : SPVState := { merkle_roots := [], requested_merkle := [] }

/-- `SPV.verify_merkle`.  `verifier_alive` models `wallet.verifier is not
None`; `read_header` models `network.blockchain().read_header`.  On success
the dict assignment and the `requested_merkle.remove` (with its ignored
`KeyError`) are modelled by association-list update and filter. -/
def verify_merkle (P : SPVPrims) (read_header : ℤ → Option BlockHeader)
    (verifier_alive : Bool) (st : SPVState) (resp : MerkleResp) :
    SPVState × VerifyOutcome :=
  if ¬ verifier_alive then (st, .killed)
  else if resp.err then (st, .respError)
  else
    match hash_merkle_root P resp.merkle resp.tx_hash resp.pos with
    | .error _ => (st, .innerNodeAbort)
    | .ok root =>
      match read_header resp.block_height with
      | none => (st, .headerMissing)
      | some hdr =>
        if hdr.merkle_root ≠ root then (st, .rootMismatch)
        else
          ({ merkle_roots :=
               (resp.tx_hash, root) :: st.merkle_roots.filter (fun kv => kv.1 ≠ resp.tx_hash),
             requested_merkle := st.requested_merkle.filter (fun t => t ≠ resp.tx_hash) },
           .verified)

/-- The body of the request loop in `SPV.run` for one `(tx_hash, tx_height)`
pair: skip unconfirmed or future heights, skip when the header is missing
(the checkpoint fetch does not touch the verifier state), and otherwise
request the proof iff the txid is in neither collection. -/
def run_request_step (local_height : ℤ) (header_avail : ℤ → Bool)
    (st : SPVState) (item : String × ℤ) : SPVState :=
  if item.2 ≤ 0 ∨ local_height < item.2 then st
  else if ¬ header_avail item.2 then st
  else if item.1 ∉ st.requested_merkle ∧ item.1 ∉ st.merkle_roots.map Prod.fst then
    { st with requested_merkle := item.1 :: st.requested_merkle }
  else st

/-- `SPV.remove_spv_proof_for_tx`: `merkle_roots.pop(tx, None)` and
`requested_merkle.remove(tx)` with `KeyError` ignored. -/
def remove_spv_proof_for_tx (st : SPVState) (tx_hash : String) : SPVState :=
  { merkle_roots := st.merkle_roots.filter (fun kv => kv.1 ≠ tx_hash),
    requested_merkle := st.requested_merkle.filter (fun t => t ≠ tx_hash) }

/-- `SPV.run`: early exits when disconnected or without a blockchain, then
the request loop over `wallet.get_unverified_txs()`, then (on a detected
chain change) `undo_verifications`, which removes the proofs of the txids the
wallet reports. -/
def SPV_run (connected has_chain : Bool) (local_height : ℤ)
    (header_avail : ℤ → Bool) (unverified : List (String × ℤ))
    (chain_changed : Bool) (undo_txs : List String) (st : SPVState) : SPVState :=
  if ¬ connected then st
  else if ¬ has_chain then st
  else
    let st1 := unverified.foldl (run_request_step local_height header_avail) st
    if chain_changed then undo_txs.foldl remove_spv_proof_for_tx st1 else st1

/-- The mutual-exclusion invariant of C8: no txid is simultaneously in
`requested_merkle` and among the keys of `merkle_roots`. -/
def spv_exclusive (st : SPVState) : Bool :=
  st.requested_merkle.all (fun tx => ¬ (st.merkle_roots.map Prod.fst).contains tx)

theorem shift_mod_two_eq_testBit (pos i : Nat) :
    ((pos >>> i) % 2 = 1) ↔ Nat.testBit pos i = true := by
  rw [Nat.testBit_to_div_mod, Nat.shiftRight_eq_div_pow]
  exact decide_eq_true_iff.symm

theorem merkleStep_eq_testBit (P : SPVPrims) (pos i : Nat) (h : List Nat) (item : String) :
    merkleStep P pos i h item =
      (if Nat.testBit pos i then P.Hash (P.hashDecode item ++ h)
       else P.Hash (h ++ P.hashDecode item)) := by
  unfold merkleStep
  by_cases hb : (pos >>> i) % 2 = 1
  · rw [if_pos hb, if_pos ((shift_mod_two_eq_testBit pos i).mp hb)]
  · rw [if_neg hb, if_neg (fun hc => hb ((shift_mod_two_eq_testBit pos i).mpr hc))]

theorem hashMerkleRootAux_error_of_valid (P : SPVPrims) (pos : Nat) :
    ∀ (items : List String) (h : List Nat) (i : Nat),
      (∃ h2 ∈ merkleChain P pos h items i, P.isValidTx (P.bh2u h2) = true) →
      hashMerkleRootAux P pos h items i = .error () := by
  intro items
  induction items with
  | nil => intro h i hex; simp [merkleChain] at hex
  | cons item rest ih =>
    intro h i hex
    simp only [merkleChain, List.mem_cons] at hex
    simp only [hashMerkleRootAux]
    by_cases hv : P.isValidTx (P.bh2u (merkleStep P pos i h item)) = true
    · rw [if_pos hv]
    · rw [if_neg hv]
      apply ih
      obtain ⟨h2, hmem, hval⟩ := hex
      rcases hmem with rfl | hmem2
      · exact absurd hval hv
      · exact ⟨h2, hmem2, hval⟩

theorem hashMerkleRootAux_eq_spec (P : SPVPrims) (pos : Nat) :
    ∀ (items : List String) (h : List Nat) (i : Nat),
      (∀ h2 ∈ merkleChain P pos h items i, P.isValidTx (P.bh2u h2) = false) →
      hashMerkleRootAux P pos h items i = .ok (specMerkleFoldAux P pos h items i) := by
  intro items
  induction items with
  | nil => intro h i _; rfl
  | cons item rest ih =>
    intro h i hall
    have hv : P.isValidTx (P.bh2u (merkleStep P pos i h item)) = false :=
      hall _ (by simp [merkleChain])
    simp only [hashMerkleRootAux]
    rw [if_neg (by simp [hv])]
    rw [ih _ _ (fun h2 hmem => hall h2 (by simp only [merkleChain, List.mem_cons]; right; exact hmem))]
    simp only [specMerkleFoldAux]
    rw [merkleStep_eq_testBit]

/-- C5: the merkle-root recomputation folds the target hash with each
sibling, bit `i` of `position` selecting prepend (set) versus append
(clear) — stated as refinement of the spec-side fold `specMerkleFold` — and
on the concrete 3-leaf shape (`pos = 1`, siblings `[h0, h23]`) it hashes
`h0` prepended to the target and then appends `h23`, yielding that root. -/
theorem merkle_fold_bit_selection :
    (∀ (P : SPVPrims) (target : String) (siblings : List String) (pos : Nat),
        (∀ h2 ∈ merkleChain P pos (P.hashDecode target) siblings 0,
            P.isValidTx (P.bh2u h2) = false) →
        hash_merkle_root P siblings target pos =
          .ok (P.hashEncode (specMerkleFold P target siblings pos))) ∧
    (∀ (P : SPVPrims) (h0 h23 target : String),
        P.isValidTx (P.bh2u (P.Hash (P.hashDecode h0 ++ P.hashDecode target))) = false →
        P.isValidTx (P.bh2u (P.Hash (P.Hash (P.hashDecode h0 ++ P.hashDecode target) ++
            P.hashDecode h23))) = false →
        hash_merkle_root P [h0, h23] target 1 =
          .ok (P.hashEncode (P.Hash (P.Hash (P.hashDecode h0 ++ P.hashDecode target) ++
            P.hashDecode h23)))) := by
  constructor
  · intro P target siblings pos hall
    unfold hash_merkle_root specMerkleFold
    rw [hashMerkleRootAux_eq_spec P pos siblings _ 0 hall]
    rfl
  · intro P h0 h23 target hv1 hv2
    have s0 : ((1 : Nat) >>> 0) % 2 = 1 := by decide
    have s1 : ¬ (((1 : Nat) >>> 1) % 2 = 1) := by decide
    unfold hash_merkle_root
    simp only [hashMerkleRootAux, merkleStep, if_pos s0, if_neg s1]
    rw [if_neg (by simp [hv1]), if_neg (by simp [hv2])]
    rfl

/-- Witness prims for C5: a trivial hash and an always-failing
transaction-deserialization check. -/
def spvPrimsW5 : SPVPrims :=
  { Hash := fun l => 7 :: l, hashDecode := fun s => [s.length],
    hashEncode := fun _ => "root", bh2u := fun _ => "", isValidTx := fun _ => false }

/-- Witness for C5: the 3-leaf instance at concrete primitives. -/
theorem merkle_fold_bit_selection_witness :
    hash_merkle_root spvPrimsW5 ["a", "bc"] "t" 1 =
      .ok (spvPrimsW5.hashEncode (spvPrimsW5.Hash (spvPrimsW5.Hash
        (spvPrimsW5.hashDecode "a" ++ spvPrimsW5.hashDecode "t") ++
        spvPrimsW5.hashDecode "bc"))) :=
  merkle_fold_bit_selection.2 spvPrimsW5 "a" "bc" "t" rfl rfl

/-- C10: with an empty sibling list the fold performs zero steps, the
valid-transaction check never runs (the result is `ok` for every `isValidTx`,
in particular the constantly-true one), and the returned root is the decoded
and re-encoded target hash — the target itself whenever the external hex
codec round-trips (`hash_encode(hash_decode(x)) = x` for valid hashes). -/
theorem merkle_empty_path_returns_target :
    (∀ (P : SPVPrims) (target : String) (pos : Nat),
        hash_merkle_root P [] target pos = .ok (P.hashEncode (P.hashDecode target))) ∧
    (∀ (P : SPVPrims) (target : String) (pos : Nat),
        P.hashEncode (P.hashDecode target) = target →
        hash_merkle_root P [] target pos = .ok target) := by
  constructor
  · intro P target pos; rfl
  · intro P target pos hrt
    show (hashMerkleRootAux P pos (P.hashDecode target) [] 0).map P.hashEncode = .ok target
    simp only [hashMerkleRootAux, Except.map, hrt]

/-- Witness prims for C10: `isValidTx` is constantly true, and the codec
round-trips on the chosen target. -/
def spvPrimsW10 : SPVPrims :=
  { Hash := fun l => l, hashDecode := fun _ => [], hashEncode := fun _ => "ab",
    bh2u := fun _ => "", isValidTx := fun _ => true }

/-- Witness for C10 at concrete primitives whose codec round-trips on "ab". -/
theorem merkle_empty_path_returns_target_witness :
    hash_merkle_root spvPrimsW10 [] "ab" 5 = .ok "ab" :=
  merkle_empty_path_returns_target.2 spvPrimsW10 "ab" 5 rfl

/-- C2: if any intermediate hash of the fold deserializes as a valid
transaction, `verify_merkle` ends in the inner-node abort with the state
unchanged, for every header store — in particular the stored root is never
consulted, even when it would have matched the recomputed root. -/
theorem inner_node_aborts_before_root_check (P : SPVPrims)
    (read_header : ℤ → Option BlockHeader) (st : SPVState) (resp : MerkleResp)
    (herr : resp.err = false)
    (hvalid : ∃ h2 ∈ merkleChain P resp.pos (P.hashDecode resp.tx_hash) resp.merkle 0,
        P.isValidTx (P.bh2u h2) = true) :
    verify_merkle P read_header true st resp = (st, .innerNodeAbort) := by
  have hroot : hash_merkle_root P resp.merkle resp.tx_hash resp.pos = .error () := by
    unfold hash_merkle_root
    rw [hashMerkleRootAux_error_of_valid P resp.pos resp.merkle _ 0 hvalid]
    rfl
  simp only [verify_merkle, herr, hroot, not_true, Bool.false_eq_true, if_false, ite_false]

/-- Witness prims for C2: the single fold step hashes to a byte string that
the (constantly-true) deserialization check accepts. -/
def spvPrimsW2 : SPVPrims :=
  { Hash := fun _ => [1], hashDecode := fun _ => [], hashEncode := fun _ => "",
    bh2u := fun _ => "aa", isValidTx := fun _ => true }

/-- Witness response for C2. -/
def respW2 : MerkleResp :=
  { err := false, tx_hash := "t", merkle := ["s"], block_height := 0, pos := 0 }

/-- Witness for C2 at concrete primitives, one sibling, empty header store. -/
theorem inner_node_aborts_before_root_check_witness :
    verify_merkle spvPrimsW2 (fun _ => none) true initial_spv_state respW2 =
      (initial_spv_state, .innerNodeAbort) :=
  inner_node_aborts_before_root_check spvPrimsW2 (fun _ => none) initial_spv_state respW2
    rfl ⟨[1], by decide⟩

theorem spv_exclusive_iff (st : SPVState) :
    spv_exclusive st = true ↔
      ∀ tx ∈ st.requested_merkle, tx ∉ st.merkle_roots.map Prod.fst := by
  simp [spv_exclusive]

theorem remove_spv_preserves_exclusive (st : SPVState) (tx : String)
    (h : spv_exclusive st = true) :
    spv_exclusive (remove_spv_proof_for_tx st tx) = true := by
  rw [spv_exclusive_iff] at h ⊢
  intro t ht hmem
  simp only [remove_spv_proof_for_tx] at ht hmem
  rw [List.mem_filter] at ht
  rw [List.mem_map] at hmem
  obtain ⟨kv, hkv, hkvt⟩ := hmem
  rw [List.mem_filter] at hkv
  exact h t ht.1 (List.mem_map.mpr ⟨kv, hkv.1, hkvt⟩)

theorem verify_merkle_preserves_exclusive (P : SPVPrims)
    (rh : ℤ → Option BlockHeader) (alive : Bool) (st : SPVState) (resp : MerkleResp)
    (h : spv_exclusive st = true) :
    spv_exclusive (verify_merkle P rh alive st resp).1 = true := by
  unfold verify_merkle
  split
  · exact h
  · split
    · exact h
    · split
      · exact h
      · split
        · exact h
        · split
          · exact h
          · rw [spv_exclusive_iff] at h ⊢
            intro t ht hmem
            simp only [List.mem_filter, decide_eq_true_eq] at ht
            simp only [List.map_cons, List.mem_cons, List.mem_map] at hmem
            rcases hmem with heq | ⟨kv, hkv, hkvt⟩
            · exact ht.2 heq
            · rw [List.mem_filter] at hkv
              exact h t ht.1 (List.mem_map.mpr ⟨kv, hkv.1, hkvt⟩)

theorem run_step_preserves_exclusive (lh : ℤ) (ha : ℤ → Bool) (st : SPVState)
    (item : String × ℤ) (h : spv_exclusive st = true) :
    spv_exclusive (run_request_step lh ha st item) = true := by
  unfold run_request_step
  split
  · exact h
  · split
    · exact h
    · split
      · next hguard =>
        rw [spv_exclusive_iff] at h ⊢
        intro t ht hmem
        rcases List.mem_cons.mp ht with rfl | ht2
        · exact hguard.2 hmem
        · exact h t ht2 hmem
      · exact h

theorem foldl_run_step_preserves_exclusive (lh : ℤ) (ha : ℤ → Bool) :
    ∀ (l : List (String × ℤ)) (st : SPVState), spv_exclusive st = true →
      spv_exclusive (l.foldl (run_request_step lh ha) st) = true := by
  intro l
  induction l with
  | nil => intro st h; exact h
  | cons x xs ih =>
    intro st h
    exact ih _ (run_step_preserves_exclusive lh ha st x h)

theorem foldl_remove_preserves_exclusive :
    ∀ (l : List String) (st : SPVState), spv_exclusive st = true →
      spv_exclusive (l.foldl remove_spv_proof_for_tx st) = true := by
  intro l
  induction l with
  | nil => intro st h; exact h
  | cons x xs ih =>
    intro st h
    exact ih _ (remove_spv_preserves_exclusive st x h)

/-- C8: a transaction id is in at most one of `requested_merkle` and the
keys of `merkle_roots`: the invariant holds for the freshly constructed
state and is preserved by `run`, by `verify_merkle`, and by
`remove_spv_proof_for_tx`. -/
theorem requested_verified_mutually_exclusive :
    spv_exclusive initial_spv_state = true ∧
    (∀ (c b : Bool) (lh : ℤ) (ha : ℤ → Bool) (unv : List (String × ℤ))
        (cc : Bool) (undo : List String) (st : SPVState),
        spv_exclusive st = true →
        spv_exclusive (SPV_run c b lh ha unv cc undo st) = true) ∧
    (∀ (P : SPVPrims) (rh : ℤ → Option BlockHeader) (alive : Bool)
        (st : SPVState) (resp : MerkleResp),
        spv_exclusive st = true →
        spv_exclusive (verify_merkle P rh alive st resp).1 = true) ∧
    (∀ (st : SPVState) (tx : String),
        spv_exclusive st = true →
        spv_exclusive (remove_spv_proof_for_tx st tx) = true) := by
  refine ⟨rfl, ?_, verify_merkle_preserves_exclusive, remove_spv_preserves_exclusive⟩
  intro c b lh ha unv cc undo st h
  unfold SPV_run
  split
  · exact h
  · split
    · exact h
    · have h1 := foldl_run_step_preserves_exclusive lh ha unv st h
      split
      · exact foldl_remove_preserves_exclusive undo _ h1
      · exact h1

/-- Witness for C8: the removal step applied to a concrete state satisfying
the invariant. -/
theorem requested_verified_mutually_exclusive_witness :
    spv_exclusive (remove_spv_proof_for_tx
      { merkle_roots := [("a", "r")], requested_merkle := ["b"] } "b") = true :=
  requested_verified_mutually_exclusive.2.2.2
    { merkle_roots := [("a", "r")], requested_merkle := ["b"] } "b" (by decide)

/- ------------------------------------------------------------------ -/
/- Swap records, store and indices (`SwapManager`)                     -/
/- ------------------------------------------------------------------ -/

/-- `TxOutpoint` (txid, output index). -/
structure TxOutpointM where
  txid : String
  out_idx : Nat
deriving DecidableEq

/-- `SwapData` (`submarine_swaps.py`).  `funding_prevout` models the
in-memory `SwapData._funding_prevout` twin of `funding_txid`: both start
unset and `_claim_swap` always assigns them together. -/
structure SwapData where
  is_reverse : Bool
  locktime : ℤ
  onchain_amount : ℤ
  lightning_amount : ℤ
  redeem_script : List Nat
  preimage : List Nat
  prepay_hash : Option (List Nat)
  privkey : List Nat
  lockup_address : String
  receive_address : String
  funding_txid : Option String
  spending_txid : Option String
  is_redeemed : Bool
  funding_prevout : Option TxOutpointM
deriving DecidableEq

/-- Python dict assignment `d[k] = v` on an association list. -/
def assocUpsert {α β : Type} [DecidableEq α] (key : α) (v : β)
    (l : List (α × β)) : List (α × β) :=
  (key, v) :: l.filter (fun kv => kv.1 ≠ key)

/-- The `SwapManager` record store: `swaps` (payment-hash hex → record) and
the two derived indices. -/
structure SwapStore where
  swaps : List (String × SwapData)
  by_funding_outpoint : List (TxOutpointM × SwapData)
  by_lockup_address : List (String × SwapData)
deriving DecidableEq

/-- `SwapManager._add_or_reindex_swap`.  `payment_hash_hex` abstracts the
external `sha256(preimage).hex()` underlying `SwapData.payment_hash`. -/
def add_or_reindex_swap (payment_hash_hex : SwapData → String)
    (st : SwapStore) (swap : SwapData) : SwapStore :=
  let st1 := if (st.swaps.lookup (payment_hash_hex swap)).isSome then st
             else { st with swaps := (payment_hash_hex swap, swap) :: st.swaps }
  let st2 := match swap.funding_prevout with
             | some p => { st1 with
                 by_funding_outpoint := assocUpsert p swap st1.by_funding_outpoint }
             | none => st1
  { st2 with by_lockup_address := assocUpsert swap.lockup_address swap st2.by_lockup_address }

/-- C9: adding a record with unset funding info leaves `by_funding_outpoint`
untouched; re-adding after the funding fields are set populates it; and a
second add with the same record leaves the primary map unchanged while the
secondary indices still resolve to the record. -/
theorem add_or_reindex_swap_indexing (pH : SwapData → String) (st : SwapStore)
    (swap : SwapData) :
    (swap.funding_txid = none → swap.funding_prevout = none →
        (add_or_reindex_swap pH st swap).by_funding_outpoint = st.by_funding_outpoint) ∧
    (∀ txid p, (add_or_reindex_swap pH st
          { swap with funding_txid := some txid, funding_prevout := some p
          }).by_funding_outpoint.lookup p =
        some { swap with funding_txid := some txid, funding_prevout := some p }) ∧
    ((add_or_reindex_swap pH (add_or_reindex_swap pH st swap) swap).swaps =
        (add_or_reindex_swap pH st swap).swaps ∧
      (add_or_reindex_swap pH (add_or_reindex_swap pH st swap)
          swap).by_lockup_address.lookup swap.lockup_address = some swap ∧
      (∀ p, swap.funding_prevout = some p →
        (add_or_reindex_swap pH (add_or_reindex_swap pH st swap)
            swap).by_funding_outpoint.lookup p = some swap)) := by
  refine ⟨?_, ?_, ?_, ?_, ?_⟩
  · intro _ hprev
    simp only [add_or_reindex_swap, hprev]
    split <;> rfl
  · intro txid p
    simp only [add_or_reindex_swap, assocUpsert]
    split <;> simp [List.lookup]
  · have hsome : ((add_or_reindex_swap pH st swap).swaps.lookup (pH swap)).isSome := by
      simp only [add_or_reindex_swap]
      rcases hlk : (st.swaps.lookup (pH swap)) with _ | v
      · simp only [hlk, Option.isSome_none, Bool.false_eq_true, if_false]
        cases swap.funding_prevout <;> simp [List.lookup]
      · simp only [hlk, Option.isSome_some, if_true]
        cases swap.funding_prevout <;> simp [hlk]
    conv_lhs => rw [add_or_reindex_swap]
    rw [if_pos hsome]
    cases hp : swap.funding_prevout <;> rfl
  · conv_lhs => rw [add_or_reindex_swap]
    cases hp : swap.funding_prevout <;> simp [assocUpsert, List.lookup]
  · intro p hp
    conv_lhs => rw [add_or_reindex_swap]
    rw [hp]
    simp [assocUpsert, List.lookup]

/-- Witness hash function for C9. -/
def pHW : SwapData → String := fun _ => "ph"

/-- Witness record for C9 (funding info unset, as records are created). -/
def swapW9 : SwapData :=
  { is_reverse := true, locktime := 100, onchain_amount := 1000,
    lightning_amount := 1010, redeem_script := [], preimage := [],
    prepay_hash := none, privkey := [], lockup_address := "addr",
    receive_address := "recv", funding_txid := none, spending_txid := none,
    is_redeemed := false, funding_prevout := none }

/-- Witness for C9: adding an unfunded record leaves the outpoint index empty. -/
theorem add_or_reindex_swap_indexing_witness :
    (add_or_reindex_swap pHW
      { swaps := [], by_funding_outpoint := [], by_lockup_address := [] }
      swapW9).by_funding_outpoint = [] :=
  (add_or_reindex_swap_indexing pHW
    { swaps := [], by_funding_outpoint := [], by_lockup_address := [] } swapW9).1 rfl rfl

/- ------------------------------------------------------------------ -/
/- Claim/refund transactions and the chain watcher (`SwapManager`)     -/
/- ------------------------------------------------------------------ -/

/-- The data of a claim/refund transaction built by `create_claim_tx`: one
input spending the lockup outpoint, a single output, version 2, RBF
(signing in `sign_tx` adds the witness; neither changes these fields). -/
structure ClaimTxM where
  txin_prevout : TxOutpointM
  witness_script : List Nat
  output_address : String
  output_value : ℤ
  locktime : ℤ
deriving DecidableEq

/-- `create_claim_tx`. -/
def create_claim_tx (txin_prevout : TxOutpointM) (witness_script : List Nat)
    (address : String) (amount_sat : ℤ) (locktime : ℤ) : ClaimTxM :=
  { txin_prevout := txin_prevout, witness_script := witness_script,
    output_address := address, output_value := amount_sat, locktime := locktime }

/-- The fields of a `PartialTxInput` from `get_addr_outputs` that
`_claim_swap` reads. -/
structure TxInInfoM where
  prevout : TxOutpointM
  value_sats : ℤ
  spent_height : Option ℤ
  spent_txid : Option String
  block_height : ℤ
deriving DecidableEq

/-- `SwapManager._create_and_sign_claim_tx`: output value is the input value
minus the fixed claim-fee estimate; below the dust threshold it raises
`BelowDustLimit`.  Reverse claims use locktime 0, forward refunds the swap
locktime.  `sign_tx` (ECDSA, external) only fills the witness. -/
def create_and_sign_claim_tx (txin : TxInInfoM) (swap : SwapData)
    (claim_fee dust : ℤ) : Except Unit ClaimTxM :=
  let amount_sat := txin.value_sats - claim_fee
  if amount_sat < dust then .error ()
  else .ok (create_claim_tx txin.prevout swap.redeem_script swap.receive_address
    amount_sat (if swap.is_reverse then 0 else swap.locktime))

/-- Side effects of one `_claim_swap` call beyond the record mutation. -/
inductive WatcherAction where
  | reindex
  | remove_callback (addr : String)
  | broadcast (txid : Option String)
  | add_transaction (tx : ClaimTxM)
deriving DecidableEq

/-- The environment of one `_claim_swap` invocation: chain view and config.
`redeem_delay` is `REDEEM_AFTER_DOUBLE_SPENT_DELAY` and `tx_height_local`
the `TX_HEIGHT_LOCAL` sentinel (externally -2); `txid_of` abstracts txid
computation of a signed transaction. -/
structure WatchEnv where
  up_to_date : Bool
  current_height : ℤ
  allow_instant_swaps : Bool
  claim_fee : ℤ
  dust : ℤ
  redeem_delay : ℤ
  tx_height_local : ℤ
  txid_of : ClaimTxM → String

/-- The body of the `for txin in txos.values()` loop of
`SwapManager._claim_swap` for one output.  Returns the updated record, the
emitted actions, and whether the loop function returned early (the
too-early-for-refund `return`). -/
def claim_swap_one (env : WatchEnv) (swap : SwapData) (txin : TxInInfoM) :
    SwapData × List WatcherAction × Bool :=
  if swap.is_reverse ∧ txin.value_sats < swap.onchain_amount then
    (swap, [], false)
  else
    let swap1 := { swap with funding_txid := some txin.prevout.txid,
                             funding_prevout := some txin.prevout }
    match txin.spent_height with
    | some spent_height =>
      let swap2 := { swap1 with spending_txid := txin.spent_txid }
      if 0 < spent_height then
        if env.redeem_delay < env.current_height - spent_height then
          ({ swap2 with is_redeemed := true },
           [.reindex, .remove_callback swap2.lockup_address], false)
        else (swap2, [.reindex], false)
      else if spent_height = env.tx_height_local then
        if 0 < txin.block_height ∨ env.allow_instant_swaps then
          (swap2, [.reindex, .broadcast txin.spent_txid], false)
        else (swap2, [.reindex], false)
      else (swap2, [.reindex], false)
    | none =>
      if ¬ swap1.is_reverse ∧ env.current_height - swap1.locktime < 0 then
        (swap1, [.reindex], true)
      else
        match create_and_sign_claim_tx txin swap1 env.claim_fee env.dust with
        | .error _ => (swap1, [.reindex], false)
        | .ok tx =>
          ({ swap1 with spending_txid := some (env.txid_of tx) },
           [.reindex, .add_transaction tx], false)

/-- The loop of `SwapManager._claim_swap` over the address outputs. -/
def claim_swap_loop (env : WatchEnv) : SwapData → List TxInInfoM →
    SwapData × List WatcherAction
  | swap, [] => (swap, [])
  | swap, txin :: rest =>
    let r := claim_swap_one env swap txin
    if r.2.2 then (r.1, r.2.1)
    else
      let rr := claim_swap_loop env r.1 rest
      (rr.1, r.2.1 ++ rr.2)

/-- `SwapManager._claim_swap`: a stale chain view is a no-op. -/
def claim_swap (env : WatchEnv) (swap : SwapData) (txos : List TxInInfoM) :
    SwapData × List WatcherAction :=
  if ¬ env.up_to_date then (swap, []) else claim_swap_loop env swap txos

/-- A sequence of watcher invocations (the callback fires once per chain
event), threading the swap record through. -/
def claim_swap_runs : List (WatchEnv × List TxInInfoM) → SwapData →
    SwapData × List WatcherAction
  | [], swap => (swap, [])
  | (env, txos) :: rest, swap =>
    let r := claim_swap env swap txos
    let rr := claim_swap_runs rest r.1
    (rr.1, r.2 ++ rr.2)

/-- Does an action persist a claim transaction spending outpoint `p`? -/
def claims_outpoint (p : TxOutpointM) : WatcherAction → Bool
  | .add_transaction tx => decide (tx.txin_prevout = p)
  | _ => false

/-- Is an action the persistence of some claim transaction? -/
def is_add_transaction : WatcherAction → Bool
  | .add_transaction _ => true
  | _ => false

theorem claim_swap_one_preserves_fields (env : WatchEnv) (swap : SwapData)
    (txin : TxInInfoM) :
    (claim_swap_one env swap txin).1.is_reverse = swap.is_reverse ∧
    (claim_swap_one env swap txin).1.onchain_amount = swap.onchain_amount := by
  unfold claim_swap_one
  dsimp only
  repeat' split
  all_goals exact ⟨rfl, rfl⟩

theorem claim_swap_one_skip (env : WatchEnv) (swap : SwapData) (txin : TxInInfoM)
    (hrev : swap.is_reverse = true) (hlow : txin.value_sats < swap.onchain_amount) :
    claim_swap_one env swap txin = (swap, [], false) := by
  unfold claim_swap_one
  rw [if_pos ⟨hrev, hlow⟩]

theorem claim_swap_one_actions (env : WatchEnv) (swap : SwapData) (txin : TxInInfoM) :
    (claim_swap_one env swap txin).2.1 = [] ∨
    (claim_swap_one env swap txin).2.1 = [.reindex] ∨
    (∃ x, (claim_swap_one env swap txin).2.1 = [.reindex, .remove_callback x]) ∨
    (∃ x, (claim_swap_one env swap txin).2.1 = [.reindex, .broadcast x]) ∨
    (∃ tx, (claim_swap_one env swap txin).2.1 = [.reindex, .add_transaction tx] ∧
      tx.txin_prevout = txin.prevout ∧
      tx.output_value = txin.value_sats - env.claim_fee ∧
      env.dust ≤ tx.output_value) := by
  unfold claim_swap_one
  dsimp only
  split
  · exact Or.inl rfl
  · split
    · split
      · split
        · exact Or.inr (Or.inr (Or.inl ⟨_, rfl⟩))
        · exact Or.inr (Or.inl rfl)
      · split
        · split
          · exact Or.inr (Or.inr (Or.inr (Or.inl ⟨_, rfl⟩)))
          · exact Or.inr (Or.inl rfl)
        · exact Or.inr (Or.inl rfl)
    · split
      · exact Or.inr (Or.inl rfl)
      · split
        · exact Or.inr (Or.inl rfl)
        · next tx0 heq =>
          refine Or.inr (Or.inr (Or.inr (Or.inr ⟨tx0, rfl, ?_⟩)))
          unfold create_and_sign_claim_tx at heq
          dsimp only at heq
          split at heq
          · exact Except.noConfusion heq
          · next hdust =>
            injection heq with heq
            subst heq
            exact ⟨rfl, rfl, by rw [not_lt] at hdust; exact hdust⟩

theorem claim_swap_loop_no_claim (env : WatchEnv) (p : TxOutpointM) :
    ∀ (txos : List TxInInfoM) (swap : SwapData),
      swap.is_reverse = true →
      (∀ t ∈ txos, t.prevout = p → t.value_sats < swap.onchain_amount) →
      ∀ a ∈ (claim_swap_loop env swap txos).2, claims_outpoint p a = false := by
  intro txos
  induction txos with
  | nil => intro swap _ _ a ha; simp [claim_swap_loop] at ha
  | cons txin rest ih =>
    intro swap hrev hlow a ha
    have hstep : ∀ b ∈ (claim_swap_one env swap txin).2.1, claims_outpoint p b = false := by
      intro b hb
      by_cases hp : txin.prevout = p
      · rw [claim_swap_one_skip env swap txin hrev (hlow txin (by simp) hp)] at hb
        simp at hb
      · rcases claim_swap_one_actions env swap txin with
          h0 | h1 | ⟨x, h2⟩ | ⟨x, h3⟩ | ⟨tx, h4, hprev, _, _⟩
        · rw [h0] at hb; simp at hb
        · rw [h1] at hb; simp at hb; subst hb; rfl
        · rw [h2] at hb; simp at hb
          rcases hb with rfl | rfl <;> rfl
        · rw [h3] at hb; simp at hb
          rcases hb with rfl | rfl <;> rfl
        · rw [h4] at hb; simp at hb
          rcases hb with rfl | rfl
          · rfl
          · simp only [claims_outpoint, hprev]
            exact decide_eq_false hp
    simp only [claim_swap_loop] at ha
    by_cases he : (claim_swap_one env swap txin).2.2
    · rw [if_pos he] at ha
      exact hstep a ha
    · rw [if_neg he] at ha
      rcases List.mem_append.mp ha with h | h
      · exact hstep a h
      · have hpres := claim_swap_one_preserves_fields env swap txin
        refine ih (claim_swap_one env swap txin).1 (by rw [hpres.1]; exact hrev) ?_ a h
        intro t ht hp2
        rw [hpres.2]
        exact hlow t (by simp [ht]) hp2

theorem claim_swap_loop_preserves_fields (env : WatchEnv) :
    ∀ (txos : List TxInInfoM) (swap : SwapData),
      (claim_swap_loop env swap txos).1.is_reverse = swap.is_reverse ∧
      (claim_swap_loop env swap txos).1.onchain_amount = swap.onchain_amount := by
  intro txos
  induction txos with
  | nil => intro swap; exact ⟨rfl, rfl⟩
  | cons txin rest ih =>
    intro swap
    have h1 := claim_swap_one_preserves_fields env swap txin
    simp only [claim_swap_loop]
    by_cases he : (claim_swap_one env swap txin).2.2
    · rw [if_pos he]; exact h1
    · rw [if_neg he]
      have h2 := ih (claim_swap_one env swap txin).1
      exact ⟨h2.1.trans h1.1, h2.2.trans h1.2⟩

theorem claim_swap_no_claim (env : WatchEnv) (p : TxOutpointM) (swap : SwapData)
    (txos : List TxInInfoM) (hrev : swap.is_reverse = true)
    (hlow : ∀ t ∈ txos, t.prevout = p → t.value_sats < swap.onchain_amount) :
    ∀ a ∈ (claim_swap env swap txos).2, claims_outpoint p a = false := by
  unfold claim_swap
  split
  · intro a ha; simp at ha
  · exact claim_swap_loop_no_claim env p txos swap hrev hlow

theorem claim_swap_preserves_fields (env : WatchEnv) (swap : SwapData)
    (txos : List TxInInfoM) :
    (claim_swap env swap txos).1.is_reverse = swap.is_reverse ∧
    (claim_swap env swap txos).1.onchain_amount = swap.onchain_amount := by
  unfold claim_swap
  split
  · exact ⟨rfl, rfl⟩
  · exact claim_swap_loop_preserves_fields env txos swap

/-- C3: for a reverse swap, if every output observed at outpoint `p` over an
arbitrary sequence of watcher invocations has value strictly below the
swap's agreed `onchain_amount`, then no invocation ever persists (builds and
signs) a claim transaction spending `p` — the output is skipped and watching
continues. -/
theorem reverse_underfunded_never_claimed (runs : List (WatchEnv × List TxInInfoM))
    (swap : SwapData) (p : TxOutpointM)
    (hrev : swap.is_reverse = true)
    (hlow : ∀ run ∈ runs, ∀ t ∈ run.2, t.prevout = p →
        t.value_sats < swap.onchain_amount) :
    ((claim_swap_runs runs swap).2.all (fun a => ! claims_outpoint p a)) = true := by
  induction runs generalizing swap with
  | nil => rfl
  | cons run rest ih =>
    obtain ⟨env, txos⟩ := run
    simp only [claim_swap_runs, List.all_append, Bool.and_eq_true]
    constructor
    · rw [List.all_eq_true]
      intro a ha
      rw [Bool.not_eq_true']
      exact claim_swap_no_claim env p swap txos hrev
        (fun t ht hp => hlow (env, txos) (by simp) t ht hp) a ha
    · have hpres := claim_swap_preserves_fields env swap txos
      refine ih (claim_swap env swap txos).1 (by rw [hpres.1]; exact hrev) ?_
      intro r hr t ht hp
      rw [hpres.2]
      exact hlow r (by simp [hr]) t ht hp

/-- Watcher environment for the C3 witness. -/
def envW3 : WatchEnv :=
  { up_to_date := true, current_height := 150, allow_instant_swaps := false,
    claim_fee := 100, dust := 546, redeem_delay := 100, tx_height_local := -2,
    txid_of := fun _ => "txid" }

/-- Underfunded lockup output for the C3 witness (value 500 < 1000). -/
def txinW3 : TxInInfoM :=
  { prevout := { txid := "f", out_idx := 0 }, value_sats := 500,
    spent_height := none, spent_txid := none, block_height := 0 }

/-- Witness for C3: one watcher invocation over the underfunded output. -/
theorem reverse_underfunded_never_claimed_witness :
    ((claim_swap_runs [(envW3, [txinW3])] swapW9).2.all
      (fun a => ! claims_outpoint { txid := "f", out_idx := 0 } a)) = true :=
  reverse_underfunded_never_claimed [(envW3, [txinW3])] swapW9
    { txid := "f", out_idx := 0 } rfl (by decide)

/-- C7: a successfully constructed claim transaction has a single output of
value exactly `V - F`; when `V - F` is below the dust threshold,
construction raises `BelowDustLimit`, and in the watcher step for that
unspent output no transaction is persisted and `spending_txid` is left
unchanged. -/
theorem claim_tx_value_and_dust (txin : TxInInfoM) (swap : SwapData)
    (fee dust : ℤ) :
    (∀ tx, create_and_sign_claim_tx txin swap fee dust = .ok tx →
        tx.output_value = txin.value_sats - fee) ∧
    (txin.value_sats - fee < dust →
        create_and_sign_claim_tx txin swap fee dust = .error ()) ∧
    (∀ env : WatchEnv, env.claim_fee = fee → env.dust = dust →
        txin.value_sats - fee < dust → txin.spent_height = none →
        ((claim_swap_one env swap txin).1.spending_txid = swap.spending_txid ∧
         (claim_swap_one env swap txin).2.1.all
           (fun a => ! is_add_transaction a) = true)) := by
  refine ⟨?_, ?_, ?_⟩
  · intro tx h
    unfold create_and_sign_claim_tx at h
    dsimp only at h
    repeat' split at h
    all_goals first
      | exact Except.noConfusion h
      | (injection h with h; subst h; rfl)
  · intro h
    unfold create_and_sign_claim_tx
    dsimp only
    rw [if_pos h]
  · intro env hfee hdust hlow hsp
    have herr : create_and_sign_claim_tx txin
        { swap with funding_txid := some txin.prevout.txid,
                    funding_prevout := some txin.prevout } env.claim_fee env.dust =
        .error () := by
      unfold create_and_sign_claim_tx
      dsimp only
      rw [if_pos (by rw [hfee, hdust]; exact hlow)]
    simp only [claim_swap_one, hsp]
    split
    · exact ⟨rfl, rfl⟩
    · split
      · exact ⟨rfl, rfl⟩
      · rw [herr]
        exact ⟨rfl, rfl⟩

/-- Output for the C7 witness (600 - 100 = 500 < 546). -/
def txinW7 : TxInInfoM :=
  { prevout := { txid := "g", out_idx := 1 }, value_sats := 600,
    spent_height := none, spent_txid := none, block_height := 0 }

/-- Witness for C7: below-dust construction raises. -/
theorem claim_tx_value_and_dust_witness :
    create_and_sign_claim_tx txinW7 swapW9 100 546 = .error () :=
  (claim_tx_value_and_dust txinW7 swapW9 100 546).2.1 (by decide)

/- ------------------------------------------------------------------ -/
/- Script template matcher and the swap templates                      -/
/- ------------------------------------------------------------------ -/

def OP_PUSHDATA1 : Nat := 76
def OP_PUSHDATA2 : Nat := 77
def OP_PUSHDATA4 : Nat := 78
def OP_IF : Nat := 99
def OP_ELSE : Nat := 103
def OP_ENDIF : Nat := 104
def OP_DROP : Nat := 117
def OP_SIZE : Nat := 130
def OP_EQUAL : Nat := 135
def OP_EQUALVERIFY : Nat := 136
def OP_HASH160 : Nat := 169
def OP_CHECKSIG : Nat := 172
def OP_CHECKLOCKTIMEVERIFY : Nat := 177

/-- A template slot: a fixed opcode, a data push with an optional predicate
on the push length (`OPPushDataGeneric`), or a pubkey push
(`OPPushDataPubkey`, 33 or 65 bytes). -/
inductive TemplateItem where
  | op (code : Nat)
  | pushGeneric (pred : Option (Nat → Bool))
  | pushPubkey

/-- `WITNESS_TEMPLATE_SWAP` (forward swaps), from the source. -/
def WITNESS_TEMPLATE_SWAP : List TemplateItem :=
  [.op OP_HASH160,
   .pushGeneric (some (fun x => decide (x = 20))),
   .op OP_EQUAL,
   .op OP_IF,
   .pushPubkey,
   .op OP_ELSE,
   .pushGeneric none,
   .op OP_CHECKLOCKTIMEVERIFY,
   .op OP_DROP,
   .pushPubkey,
   .op OP_ENDIF,
   .op OP_CHECKSIG]

/-- `WITNESS_TEMPLATE_REVERSE_SWAP`, from the source.  Note that the slot
after `OP_SIZE` is `OPPushDataGeneric(None)`: any pushed value is accepted
there. -/
def WITNESS_TEMPLATE_REVERSE_SWAP : List TemplateItem :=
  [.op OP_SIZE,
   .pushGeneric none,
   .op OP_EQUAL,
   .op OP_IF,
   .op OP_HASH160,
   .pushGeneric (some (fun x => decide (x = 20))),
   .op OP_EQUALVERIFY,
   .pushPubkey,
   .op OP_ELSE,
   .op OP_DROP,
   .pushGeneric none,
   .op OP_CHECKLOCKTIMEVERIFY,
   .op OP_DROP,
   .pushPubkey,
   .op OP_ENDIF,
   .op OP_CHECKSIG]

/-- Modelled from the spec: `transaction.script_GetOp` is not among the
analysed sources; per the spec the matcher parses the byte-string script
into an ordered sequence of (opcode, optional pushed bytes) tokens.
Opcodes 1..75 push that many bytes; `OP_PUSHDATA1/2/4` read an explicit
little-endian length; other opcodes push nothing.  A truncated script is
malformed (`none`).  The fuel argument (initially the script length, an
upper bound on the number of tokens) only drives termination. -/
def script_GetOp_fuel : Nat → List Nat → Option (List (Nat × Option (List Nat)))
  | _, [] => some []
  | 0, _ :: _ => none
  | fuel + 1, op :: rest =>
    if op ≤ 78 then
      if op < 76 then
        if rest.length < op then none
        else (script_GetOp_fuel fuel (rest.drop op)).map
          (fun ts => (op, some (rest.take op)) :: ts)
      else if op = 76 then
        match rest with
        | [] => none
        | n :: rest2 =>
          if rest2.length < n then none
          else (script_GetOp_fuel fuel (rest2.drop n)).map
            (fun ts => (op, some (rest2.take n)) :: ts)
      else if op = 77 then
        match rest with
        | a :: b :: rest2 =>
          if rest2.length < a + 256 * b then none
          else (script_GetOp_fuel fuel (rest2.drop (a + 256 * b))).map
            (fun ts => (op, some (rest2.take (a + 256 * b))) :: ts)
        | _ => none
      else
        match rest with
        | a :: b :: c :: d :: rest2 =>
          if rest2.length < a + 256 * b + 65536 * c + 16777216 * d then none
          else (script_GetOp_fuel fuel
            (rest2.drop (a + 256 * b + 65536 * c + 16777216 * d))).map
            (fun ts => (op, some (rest2.take (a + 256 * b + 65536 * c + 16777216 * d))) :: ts)
        | _ => none
    else (script_GetOp_fuel fuel rest).map (fun ts => (op, none) :: ts)

/-- Modelled from the spec: the token stream of a script. -/
def script_GetOp (script : List Nat) : Option (List (Nat × Option (List Nat))) :=
  script_GetOp_fuel script.length script

/-- Default `OPPushDataGeneric.check_data_len`: any push up to
`OP_PUSHDATA4` is accepted when no predicate is given. -/
def pushdata_pred : Option (Nat → Bool) → Nat → Bool
  | some p, x => p x
  | none, x => decide (x ≤ 78)

/-- Modelled from the spec: one slot comparison of
`transaction.match_script_against_template` — a wildcard push slot accepts
any pushed value satisfying its optional predicate (applied, as in the
source, to the opcode byte, which equals the data length for short pushes);
otherwise the opcode must equal the template's opcode. -/
def matchItem (tok : Nat × Option (List Nat)) : TemplateItem → Bool
  | .op c => decide (tok.1 = c)
  | .pushGeneric pred => pushdata_pred pred tok.1
  | .pushPubkey => decide (tok.1 = 33) || decide (tok.1 = 65)

/-- Modelled from the spec: `transaction.match_script_against_template` —
decode, compare lengths, then match the token sequence slot by slot. -/
def match_script_against_template (script : List Nat)
    (template : List TemplateItem) : Bool :=
  match script_GetOp script with
  | none => false
  | some decoded =>
    if decoded.length ≠ template.length then false
    else (decoded.zip template).all (fun p => matchItem p.1 p.2)

/-- A full reverse-swap redeem script whose `OP_SIZE` slot pushes the single
byte `v` (the canonical server script uses `v = 32`); hash-lock 20 zero
bytes, pubkeys 33 bytes, locktime push 3 bytes. -/
def rswap_script_with_size_byte (v : Nat) : List Nat :=
  [OP_SIZE, 1, v, OP_EQUAL, OP_IF, OP_HASH160, 20] ++ List.replicate 20 0 ++
  [OP_EQUALVERIFY, 33] ++ List.replicate 33 2 ++
  [OP_ELSE, OP_DROP, 3, 3, 0, 0, OP_CHECKLOCKTIMEVERIFY, OP_DROP, 33] ++
  List.replicate 33 2 ++ [OP_ENDIF, OP_CHECKSIG]

/-- The data pushed in the `OP_SIZE`-guarded slot (token 1) of a script. -/
def size_slot_data (script : List Nat) : Option (List Nat) :=
  match script_GetOp script with
  | some toks => (toks.get? 1).bind Prod.snd
  | none => none

/-- C4 (amended): the reverse-swap template enforces the `OP_SIZE`-guarded
shape but does not constrain the pushed size value — the slot is
`OPPushDataGeneric(None)` and `reverse_swap` never checks it — so the script
with any single-byte size value `v` passes the match, with `v` sitting in
the size slot. -/
theorem reverse_template_size_slot_unconstrained (v : Nat) :
    match_script_against_template (rswap_script_with_size_byte v)
        WITNESS_TEMPLATE_REVERSE_SWAP = true ∧
    size_slot_data (rswap_script_with_size_byte v) = some [v] := by
  exact ⟨rfl, rfl⟩

/-- C4 counterexample: a script passing the reverse-swap template whose
`OP_SIZE` slot pushes 31, not 32 — the validation does not force the
preimage-length check to be against 32. -/
theorem reverse_template_size_32_counterexample :
    match_script_against_template (rswap_script_with_size_byte 31)
        WITNESS_TEMPLATE_REVERSE_SWAP = true ∧
    size_slot_data (rswap_script_with_size_byte 31) = some [31] ∧
    size_slot_data (rswap_script_with_size_byte 31) ≠ some [32] := by
  exact ⟨rfl, rfl, by decide⟩

/- ------------------------------------------------------------------ -/
/- Forward swap setup (`SwapManager.normal_swap`)                      -/
/- ------------------------------------------------------------------ -/

/-- The pushed data of token `i` of a parsed script (`parsed_script[i][1]`). -/
def getData (toks : List (Nat × Option (List Nat))) (i : Nat) : Option (List Nat) :=
  (toks.get? i).bind Prod.snd

/-- `int.from_bytes(bs, byteorder='little')`. -/
def le_bytes_to_nat : List Nat → Nat
  | [] => 0
  | b :: rest => b + 256 * le_bytes_to_nat rest

/-- The `/createswap` response fields `normal_swap` reads. -/
structure FwdQuote where
  onchain_amount : ℤ
  locktime : ℤ
  lockup_address : String
  redeem_script : List Nat
  accept_zero_conf : Bool
deriving DecidableEq

/-- Side effects of a successful `normal_swap` beyond the store update. -/
inductive FwdAction where
  | add_callback (addr : String)
  | broadcast_funding (txid : String)
deriving DecidableEq

/-- `SwapManager.normal_swap` from the parsed `/createswap` response on:
the five script validations, the budget check
(`onchain_amount > expected_onchain_amount_sat` raises), the locktime bound
(`locktime - current_height >= 144` raises), then funding-transaction
creation (externals: `p2wsh`, `hash160` abstract `script_to_p2wsh` and
`hash_160`; `funding_txid` the id of the wallet-built transaction), record
persistence, watch registration, and broadcast.  Every `raise` exits before
the record store is touched or anything is broadcast. -/
def normal_swap (p2wsh : List Nat → String) (hash160 : List Nat → List Nat)
    (pH : SwapData → String) (store : SwapStore)
    (lightning_amount_sat expected_onchain_amount_sat : ℤ)
    (privkey pubkey preimage : List Nat) (receive_address : String)
    (current_height : ℤ) (q : FwdQuote) (funding_txid : String) :
    SwapStore × List FwdAction × Except Unit String :=
  match script_GetOp q.redeem_script with
  | none => (store, [], .error ())
  | some parsed =>
    if ¬ (match_script_against_template q.redeem_script WITNESS_TEMPLATE_SWAP = true) then
      (store, [], .error ())
    else if ¬ (p2wsh q.redeem_script = q.lockup_address) then (store, [], .error ())
    else if ¬ (getData parsed 1 = some (hash160 preimage)) then (store, [], .error ())
    else if ¬ (getData parsed 9 = some pubkey) then (store, [], .error ())
    else if ¬ ((getData parsed 6).map (fun bs => (le_bytes_to_nat bs : ℤ)) =
        some q.locktime) then (store, [], .error ())
    else if expected_onchain_amount_sat < q.onchain_amount then (store, [], .error ())
    else if 144 ≤ q.locktime - current_height then (store, [], .error ())
    else
      let swap : SwapData :=
        { is_reverse := false, locktime := q.locktime,
          onchain_amount := expected_onchain_amount_sat,
          lightning_amount := lightning_amount_sat,
          redeem_script := q.redeem_script, preimage := preimage,
          prepay_hash := none, privkey := privkey,
          lockup_address := q.lockup_address, receive_address := receive_address,
          funding_txid := none, spending_txid := none, is_redeemed := false,
          funding_prevout := none }
      (add_or_reindex_swap pH store swap,
       [.add_callback q.lockup_address, .broadcast_funding funding_txid],
       .ok funding_txid)

/-- C6: a quote whose on-chain amount exceeds the declared budget, or whose
locktime is more than 144 blocks above the local height, makes
`normal_swap` raise — with the swap store unchanged, no watch callback
registered and nothing broadcast. -/
theorem normal_swap_rejects_bad_quote (p2wsh : List Nat → String)
    (hash160 : List Nat → List Nat) (pH : SwapData → String) (store : SwapStore)
    (lightning_amount_sat expected_onchain_amount_sat : ℤ)
    (privkey pubkey preimage : List Nat) (receive_address : String)
    (current_height : ℤ) (q : FwdQuote) (funding_txid : String)
    (h : expected_onchain_amount_sat < q.onchain_amount ∨
         current_height + 144 < q.locktime) :
    normal_swap p2wsh hash160 pH store lightning_amount_sat
        expected_onchain_amount_sat privkey pubkey preimage receive_address
        current_height q funding_txid = (store, [], .error ()) := by
  unfold normal_swap
  split
  · rfl
  · split_ifs <;> try rfl
    exfalso
    rcases h with h | h <;> omega

/-- Over-budget quote for the C6 witness (2000 > budget 1000). -/
def quoteW6 : FwdQuote :=
  { onchain_amount := 2000, locktime := 300, lockup_address := "L",
    redeem_script := [], accept_zero_conf := true }

/-- Witness for C6: the over-budget quote is rejected with no state change. -/
theorem normal_swap_rejects_bad_quote_witness :
    normal_swap (fun _ => "L") (fun _ => []) pHW
        { swaps := [], by_funding_outpoint := [], by_lockup_address := [] }
        900 1000 [] [] [] "rcv" 200 quoteW6 "ftx" =
      ({ swaps := [], by_funding_outpoint := [], by_lockup_address := [] },
       [], .error ()) :=
  normal_swap_rejects_bad_quote (fun _ => "L") (fun _ => []) pHW
    { swaps := [], by_funding_outpoint := [], by_lockup_address := [] }
    900 1000 [] [] [] "rcv" 200 quoteW6 "ftx" (Or.inl (by decide))
